import Mathlib

/-!
Shallow embedding of the property-extraction pipeline of
`pdfquad/properties.py` (PDF Quality Assessment for Digitisation batches).

The source walks a PDF document (document -> pages -> embedded images ->
decoded pixel stream), extracts properties at each level into `lxml`
element trees, and contains some failures as exception records.

Modelling conventions:
* `lxml` element trees are the inductive `Elt` (tag, attributes, text,
  children).  Python's in-place `append` becomes the functional
  `Elt.appendChild`.
* Python dictionaries used for property maps are association lists
  (`PDict`); assignment is `dictSet`, which keeps the original position
  of an existing key and updates its value (Python dict semantics).
* External collaborator calls (pymupdf, PIL, ImageCms, the repository's
  `jpegquality` module) are modelled by their outcomes, carried as fields
  of the input structures: a raw image stream is represented by its decode
  outcome (`Except String PILImage`), and the quality / ICC collaborator
  results are fields of `PILImage`.
* A Python exception that is not caught is `Except.error`; functions that
  can let an exception escape return `Except String Elt`.
-/

/-- Scalar Python values stored in property dictionaries: the report only
ever needs their `str()` rendering, so strings and integers suffice. -/
inductive PVal where
  | pstr (s : String)
  | pint (n : Int)
deriving DecidableEq

/-- Python `str` on a stored scalar value. -/
def pvalStr : PVal → String
  | PVal.pstr s => s
  | PVal.pint n => toString n

/-- A Python dict used as an ordered property map. -/
abbrev PDict := List (String × PVal)

/-- Values occurring in PIL's decoder-reported `im.info` mapping:
byte strings, pairs (the 2-tuples the code splits or drops), or scalars. -/
inductive InfoVal where
  | bytes (b : List Nat)
  | pair (a b : PVal)
  | scalar (v : PVal)
deriving DecidableEq

/-- An `lxml` element: tag, attribute list, optional text, children. -/
inductive Elt where
  | node (tag : String) (attrs : List (String × String)) (text : Option String)
      (children : List Elt)

/-- Tag accessor. -/
def Elt.tag : Elt → String
  | Elt.node t _ _ _ => t

/-- Attribute-list accessor. -/
def Elt.attrs : Elt → List (String × String)
  | Elt.node _ a _ _ => a

/-- Text accessor. -/
def Elt.text : Elt → Option String
  | Elt.node _ _ x _ => x

/-- Children accessor. -/
def Elt.children : Elt → List Elt
  | Elt.node _ _ _ cs => cs

/-- Python `elt.append(child)`. -/
def Elt.appendChild : Elt → Elt → Elt
  | Elt.node t a x cs, c => Elt.node t a x (cs ++ [c])

/-- First-match lookup in an attribute list. -/
def attrLookup : List (String × String) → String → Option String
  | [], _ => none
  | kv :: l, k => if kv.1 = k then some kv.2 else attrLookup l k

/-- Attribute lookup on an element. -/
def Elt.attr (e : Elt) (k : String) : Option String :=
  attrLookup e.attrs k

/-- First child with the given tag, in a child list. -/
def findChild : List Elt → String → Option Elt
  | [], _ => none
  | c :: cs, t => if c.tag = t then some c else findChild cs t

/-- Python `elt.find(tag)`: first child with the given tag. -/
def Elt.find (e : Elt) (t : String) : Option Elt :=
  findChild e.children t

/-- Whether a child list holds a child with the given tag. -/
def childHasTag : List Elt → String → Bool
  | [], _ => false
  | c :: cs, t => if c.tag = t then true else childHasTag cs t

/-- Whether an element has a direct child with the given tag. -/
def Elt.hasChildTag (e : Elt) (t : String) : Bool :=
  childHasTag e.children t

/-- Whether a property dict holds a key. -/
def hasKey : PDict → String → Bool
  | [], _ => false
  | kv :: d, k => if kv.1 = k then true else hasKey d k

/-- First-match lookup in a property dict. -/
def dictLookup : PDict → String → Option PVal
  | [], _ => none
  | kv :: d, k => if kv.1 = k then some kv.2 else dictLookup d k

/-- Python dict assignment `d[k] = v`: update in place when the key is
present (keeping its position), otherwise append at the end. -/
def dictSet (d : PDict) (k : String) (v : PVal) : PDict :=
  if hasKey d k then d.map (fun kv => if kv.1 = k then (k, v) else kv)
  else d ++ [(k, v)]

/-- Source `dictionaryToElt`: one child per entry, named after the key and
holding `str(value)`, in dict iteration order. -/
def dictionaryToElt (name : String) (dictionary : PDict) : Elt :=
  Elt.node name [] none
    (dictionary.map (fun kv => Elt.node kv.1 [] (some (pvalStr kv.2)) []))

/-- The `exceptions` container element with one `exception` child per
recorded message. -/
def exceptionsElt (msgs : List String) : Elt :=
  Elt.node "exceptions" [] none
    (msgs.map (fun m => Elt.node "exception" [] (some m) []))

/-- A decoded PIL image, together with the outcomes of the collaborator
calls the extractor makes on it.

Modelled from the spec: the repository's `jpegquality.computeJPEGQuality`
module (not under the sources verified here) is the JPEG-quality
collaborator, `estimateQuality(decodedImage) -> {quality, rmsError,
normalizedSquaredError} | throws`; its outcome on this image is the
`jpegQuality` field.  Likewise `iccResult` is the outcome of the ICC
collaborator (`ImageCms` profile parse plus name/description reads) on the
image's `icc_profile` metadata entry. -/
structure PILImage where
  format : String
  width : Nat
  height : Nat
  mode : String
  bands : Nat
  info : List (String × InfoVal)
  jpegQuality : Except String (PVal × PVal × PVal)
  iccResult : Except String (String × String)

/-- A raw image stream, represented by its decode outcome
(`PIL.Image.open` + `load` either yields an image or raises). -/
abbrev RawStream := Except String PILImage

/-- One page handle: the image-reference tuples `page.get_images(full=False)`
enumerates for it.  Each tuple is positional
`(xref, smask, width, height, bpc, colorspace, alt_colorspace, name, filter)`. -/
structure Page where
  images : List (List PVal)

/-- An opened pymupdf document: authentication probe result, metadata,
catalog `PageMode` key (type, value), signature flags, pages in document
order, and the raw-stream fetch outcome per xref (`doc.xref_stream_raw`
may itself raise, and the fetched bytes may then fail to decode). -/
structure Doc where
  authRc : Int
  metadata : PDict
  pageMode : String × String
  sigflags : Int
  pages : List Page
  streams : Int → Except String RawStream

/-- The input file: path, byte size, and the outcome of `pymupdf.open`. -/
structure PDFFile where
  path : String
  size : Nat
  openResult : Except String Doc

/-- Whether an `Except` is a success. -/
def isOkE {α : Type} : Except String α → Bool
  | Except.ok _ => true
  | Except.error _ => false

/-- The fixed mode -> total-bits-per-pixel table of `getBPC`. -/
def mode_to_bpp : List (String × Nat) :=
  [("1", 1), ("L", 8), ("P", 8), ("RGB", 24), ("RGBA", 32), ("CMYK", 32),
   ("YCbCr", 24), ("LAB", 24), ("HSV", 24), ("I", 32), ("F", 32)]

/-- Source `getBPC`: bits per component from mode and band count.
`mode_to_bpp[image.mode]` raises `KeyError` for a mode outside the table
(uncaught, hence `Except.error`); once the lookup succeeded the
`isinstance(bitsPerPixel, int)` guard of the source always holds, so the
`-9999` branch is reached only for a zero component count. -/
def getBPC (image : PILImage) : Except String Int :=
  match mode_to_bpp.lookup image.mode with
  | none => Except.error ("KeyError: " ++ image.mode)
  | some bitsPerPixel =>
    let noComponents := image.bands
    if noComponents ≠ 0 then Except.ok (Int.ofNat (bitsPerPixel / noComponents))
    else Except.ok (-9999)

/-- Index into a Python tuple; out of range raises `IndexError`. -/
def pyIndex (l : List PVal) (i : Nat) : Except String PVal :=
  match l.get? i with
  | some v => Except.ok v
  | none => Except.error "IndexError: tuple index out of range"

/-- Source `getImageDictProperties`: store the image-reference tuple's
positions 0, 2, 3, 4, 5, 6, 8 under fixed keys (positions 1 `smask` and
7 `name` are skipped, as in the commented-out source lines). -/
def getImageDictProperties (image : List PVal) (pageNo : Nat) : Except String Elt :=
  match pyIndex image 0 with
  | Except.error e => Except.error e
  | Except.ok x0 =>
  match pyIndex image 2 with
  | Except.error e => Except.error e
  | Except.ok x2 =>
  match pyIndex image 3 with
  | Except.error e => Except.error e
  | Except.ok x3 =>
  match pyIndex image 4 with
  | Except.error e => Except.error e
  | Except.ok x4 =>
  match pyIndex image 5 with
  | Except.error e => Except.error e
  | Except.ok x5 =>
  match pyIndex image 6 with
  | Except.error e => Except.error e
  | Except.ok x6 =>
  match pyIndex image 8 with
  | Except.error e => Except.error e
  | Except.ok x8 =>
    Except.ok (dictionaryToElt "dict"
      [("xref", x0), ("width", x2), ("height", x3), ("bpc", x4),
       ("colorspace", x5), ("altcolorspace", x6), ("filter", x8)])

/-- The base stream-property dict recorded right after a successful decode:
format, decoded width/height, mode, component count, derived bpc. -/
def baseStreamProps (im : PILImage) (bpc : Int) : PDict :=
  [("format", PVal.pstr im.format), ("width", PVal.pint im.width),
   ("height", PVal.pint im.height), ("mode", PVal.pstr im.mode),
   ("components", PVal.pint im.bands), ("bpc", PVal.pint bpc)]

/-- The JPEG-quality step: when the decoded format is JPEG, invoke the
quality collaborator; on success store `JPEGQuality` and
`NSE_JPEGQuality` (the rms error of the triple is dropped), on failure
record a stream-level exception message. -/
def jpegStage (im : PILImage) (props : PDict) : PDict × List String :=
  if im.format = "JPEG" then
    match im.jpegQuality with
    | Except.ok qrn => (dictSet (dictSet props "JPEGQuality" qrn.1) "NSE_JPEGQuality" qrn.2.2, [])
    | Except.error e => (props, [e])
  else (props, [])

/-- One iteration of the `im.info` merge loop. -/
def infoStep (d : PDict) (kv : String × InfoVal) : PDict :=
  match kv.2 with
  | InfoVal.bytes _ => dictSet d kv.1 (PVal.pstr "bytestream")
  | InfoVal.pair a b =>
    if kv.1 = "dpi" then dictSet (dictSet d "ppi_x" a) "ppi_y" b
    else if kv.1 = "jfif_density" then
      dictSet (dictSet d "jfif_density_x" a) "jfif_density_y" b
    else d
  | InfoVal.scalar v => dictSet d kv.1 v

/-- The decoder-metadata merge loop of `getImageStreamProperties`:
byte values become the sentinel string, a `dpi` pair is split into
`ppi_x`/`ppi_y`, a `jfif_density` pair into `jfif_density_x`/`_y`,
other pairs are dropped, everything else is copied verbatim. -/
def mergeInfo (props : PDict) (info : List (String × InfoVal)) : PDict :=
  info.foldl infoStep props

/-- The ICC step: `im.info['icc_profile']` raises `KeyError` when absent;
otherwise the ICC collaborator either yields name and description (both
stripped) or raises.  Failures are recorded as a stream-level exception. -/
def iccStage (im : PILImage) (props : PDict) : PDict × List String :=
  match im.info.lookup "icc_profile" with
  | none => (props, ["KeyError: icc_profile"])
  | some _ =>
    match im.iccResult with
    | Except.ok nd =>
      (dictSet (dictSet props "icc_profile_name" (PVal.pstr nd.1.trim))
        "icc_profile_description" (PVal.pstr nd.2.trim), [])
    | Except.error e => (props, [e])

/-- Source `getImageStreamProperties`: on decode failure return a `stream`
node holding only the exception list; on success build the property dict
through the stages above.  `getBPC` can raise outside any `try`, so its
failure escapes the function. -/
def getImageStreamProperties (stream : RawStream) (pageNo : Nat) : Except String Elt :=
  match stream with
  | Except.error e =>
    Except.ok ((dictionaryToElt "stream" []).appendChild (exceptionsElt [e]))
  | Except.ok im =>
    match getBPC im with
    | Except.error e => Except.error e
    | Except.ok bitsPerComponent =>
      let props0 := baseStreamProps im bitsPerComponent
      let sj := jpegStage im props0
      let props2 := mergeInfo sj.1 im.info
      let si := iccStage im props2
      Except.ok ((dictionaryToElt "stream" si.1).appendChild
        (exceptionsElt (sj.2 ++ si.2)))

/-- One decimal digit of a character, if it is one. -/
def charDigit (c : Char) : Option Nat :=
  let n := c.toNat
  if 48 ≤ n ∧ n ≤ 57 then some (n - 48) else none

/-- Accumulate decimal digits into a natural number. -/
def digitsToNat : List Char → Nat → Option Nat
  | [], acc => some acc
  | c :: cs, acc =>
    match charDigit c with
    | some d => digitsToNat cs (acc * 10 + d)
    | none => none

/-- Python `int(...)` on a string: optional sign, then decimal digits. -/
def pyInt (s : String) : Option Int :=
  match s.data with
  | [] => none
  | '-' :: cs =>
    match cs with
    | [] => none
    | _ => (digitsToNat cs 0).map (fun n => -(n : Int))
  | cs => (digitsToNat cs 0).map (fun n => (n : Int))

/-- Read the xref back from the freshly built dict element, as the source
does with `int(propsDictElt.find('xref').text)`. -/
def xrefFromDictElt (propsDictElt : Elt) : Except String Int :=
  match Elt.find propsDictElt "xref" with
  | none => Except.error "AttributeError: NoneType object has no attribute text"
  | some c =>
    match c.text with
    | none => Except.error "TypeError: int argument must not be None"
    | some t =>
      match pyInt t with
      | some n => Except.ok n
      | none => Except.error ("ValueError: invalid literal for int: " ++ t)

/-- Source `getImageProperties`: dictionary properties, then fetch the raw
stream by xref (uncaught on failure), then stream properties. -/
def getImageProperties (doc : Doc) (image : List PVal) (pageNo : Nat) : Except String Elt :=
  match getImageDictProperties image pageNo with
  | Except.error e => Except.error e
  | Except.ok propsDictElt =>
    match xrefFromDictElt propsDictElt with
    | Except.error e => Except.error e
    | Except.ok xref =>
      match doc.streams xref with
      | Except.error e => Except.error e
      | Except.ok stream =>
        match getImageStreamProperties stream pageNo with
        | Except.error e => Except.error e
        | Except.ok propsStreamElt =>
          Except.ok (Elt.node "image" [] none [propsDictElt, propsStreamElt])

/-- The per-page image loop of `getPageProperties`. -/
def buildImages (doc : Doc) (imgs : List (List PVal)) (pageNo : Nat) :
    Except String (List Elt) :=
  match imgs with
  | [] => Except.ok []
  | img :: rest =>
    match getImageProperties doc img pageNo with
    | Except.error e => Except.error e
    | Except.ok e1 =>
      match buildImages doc rest pageNo with
      | Except.error e => Except.error e
      | Except.ok es => Except.ok (e1 :: es)

/-- Source `getPageProperties`: a `page` element carrying the 1-based page
number as its `number` attribute, holding one image element per
enumerated image reference, in enumeration order. -/
def getPageProperties (doc : Doc) (page : Page) (pageNo : Nat) : Except String Elt :=
  match buildImages doc page.images pageNo with
  | Except.error e => Except.error e
  | Except.ok es => Except.ok (Elt.node "page" [("number", toString pageNo)] none es)

/-- The page loop of `getProperties`, numbering pages sequentially. -/
def buildPages (doc : Doc) (ps : List Page) (pageNo : Nat) :
    Except String (List Elt) :=
  match ps with
  | [] => Except.ok []
  | p :: rest =>
    match getPageProperties doc p pageNo with
    | Except.error e => Except.error e
    | Except.ok e1 =>
      match buildPages doc rest (pageNo + 1) with
      | Except.error e => Except.error e
      | Except.ok es => Except.ok (e1 :: es)

/-- Source `getProperties`: record path and size; open and probe for a
password (open failure -> file-level exception record and early return;
authentication reporting 0 -> `openPassword = True` and early return);
otherwise metadata, `PageMode`, `signatureFlag`, `noPages`, the pages, and
the (here always empty) file-level exception list.  Failures raised by the
page loop are uncaught and escape. -/
def getProperties (PDF : PDFFile) : Except String Elt :=
  let base0 := Elt.node "properties" [] none
    [Elt.node "filePath" [] (some PDF.path) [],
     Elt.node "fileSize" [] (some (toString PDF.size)) []]
  match PDF.openResult with
  | Except.error e => Except.ok (base0.appendChild (exceptionsElt [e]))
  | Except.ok doc =>
    if doc.authRc = 0 then
      Except.ok (base0.appendChild (Elt.node "openPassword" [] (some "True") []))
    else
      let base1 := base0.appendChild (Elt.node "openPassword" [] (some "False") [])
      match buildPages doc doc.pages 1 with
      | Except.error e => Except.error e
      | Except.ok pageElts =>
        let pageModeText : String :=
          if doc.pageMode.1 = "null" then "undefined" else doc.pageMode.2
        Except.ok ((((((base1.appendChild
          (dictionaryToElt "meta" doc.metadata)).appendChild
          (Elt.node "PageMode" [] (some pageModeText) [])).appendChild
          (Elt.node "signatureFlag" [] (some (toString doc.sigflags)) [])).appendChild
          (Elt.node "noPages" [] (some (toString doc.pages.length)) [])).appendChild
          (Elt.node "pages" [] none pageElts)).appendChild
          (exceptionsElt []))

/-! Concrete inputs used by the counterexample and witness theorems. -/

/-- An image-reference tuple laid out as pymupdf supplies it:
`(xref, smask, width, height, bpc, colorspace, alt_colorspace, name, filter)`. -/
def imgRef5 : List PVal :=
  [PVal.pint 5, PVal.pint 0, PVal.pint 100, PVal.pint 200, PVal.pint 8,
   PVal.pstr "DeviceRGB", PVal.pstr "", PVal.pstr "Im0", PVal.pstr "DCTDecode"]

/-- A document whose only image's raw-stream fetch raises. -/
def docFetchFail : Doc :=
  { authRc := 1, metadata := [], pageMode := ("null", ""), sigflags := 0,
    pages := [⟨[imgRef5]⟩],
    streams := fun _ => Except.error "stream fetch failed" }

/-- A file that opens and authenticates, holding `docFetchFail`. -/
def pdfFetchFail : PDFFile :=
  { path := "a.pdf", size := 1000, openResult := Except.ok docFetchFail }

/-- A document whose only image's raw stream is fetched but fails to decode. -/
def docDecodeFail : Doc :=
  { authRc := 1, metadata := [], pageMode := ("null", ""), sigflags := 0,
    pages := [⟨[imgRef5]⟩],
    streams := fun _ => Except.ok (Except.error "broken stream") }

/-- A file that opens and authenticates, holding `docDecodeFail`. -/
def pdfDecodeFail : PDFFile :=
  { path := "b.pdf", size := 2000, openResult := Except.ok docDecodeFail }

/-- A decoded image whose mode `LA` (luminance with alpha, a real PIL mode)
is outside the `mode_to_bpp` table. -/
def imLA : PILImage :=
  { format := "PNG", width := 10, height := 10, mode := "LA", bands := 2,
    info := [], jpegQuality := Except.error "not invoked",
    iccResult := Except.error "not invoked" }

/-- A password-protected document: the authentication probe returns 0. -/
def docPw : Doc :=
  { authRc := 0, metadata := [], pageMode := ("null", ""), sigflags := 0,
    pages := [], streams := fun _ => Except.error "locked" }

/-- A file holding the password-protected document. -/
def pdfPw : PDFFile :=
  { path := "locked.pdf", size := 42, openResult := Except.ok docPw }

/-- The image-reference tuple exactly as the spec's collaborator contract
words it: `(xref, width, height, bpc, colorspace, altColorspace, name,
filter)` — eight positions, no smask slot.  This definition follows the
spec's words, for comparison with `getImageDictProperties`, which indexes
the tuple the enumeration collaborator actually supplies. -/
def specContractTuple (xref width height bpc colorspace altColorspace nm filt : PVal) :
    List PVal :=
  [xref, width, height, bpc, colorspace, altColorspace, nm, filt]

/-- C1 counterexample: the claim says every failure below page-open level —
including fetching an image's raw stream — is contained as a stream-level
exception record and never propagates out of `getProperties`.  On this
open, authenticated document whose single image's raw-stream fetch raises,
the failure propagates out of `getProperties` uncontained. -/
theorem C1_counterexample :
    getProperties pdfFetchFail = Except.error "stream fetch failed" := rfl

/-- C2: the claim (and the spec) say an image whose mode is not in the
fixed table yields the sentinel `-9999` instead of raising.  The code
instead raises `KeyError` from `mode_to_bpp[image.mode]`: the
`isinstance(bitsPerPixel, int)` guard on the very next line is dead code
that only makes sense for a `.get()` lookup, so the sentinel fallback is
the evident intent and the subscript lookup a slip.  Evaluated at a
decoded image of mode `LA` (a real PIL mode outside the table). -/
theorem C2_bug :
    mode_to_bpp.lookup "LA" = none ∧
    getBPC imLA = Except.error "KeyError: LA" := ⟨rfl, rfl⟩

/-- C3: for every input file that opens but whose authentication probe
reports the content inaccessible (`authenticate` returns 0), the report is
exactly file path, file size, and `openPassword = True` — no metadata,
page mode, signature flag, page count, pages, or exception list — and
extraction stops there. -/
theorem C3_password (PDF : PDFFile) (doc : Doc)
    (h : PDF.openResult = Except.ok doc) (hrc : doc.authRc = 0) :
    getProperties PDF = Except.ok (Elt.node "properties" [] none
      [Elt.node "filePath" [] (some PDF.path) [],
       Elt.node "fileSize" [] (some (toString PDF.size)) [],
       Elt.node "openPassword" [] (some "True") []]) := by
  simp [getProperties, h, hrc, Elt.appendChild]

/-- Witness for C3 at a concrete password-protected file. -/
theorem C3_witness :
    getProperties pdfPw = Except.ok (Elt.node "properties" [] none
      [Elt.node "filePath" [] (some "locked.pdf") [],
       Elt.node "fileSize" [] (some "42") [],
       Elt.node "openPassword" [] (some "True") []]) :=
  C3_password pdfPw docPw rfl rfl

/-- C4: for every image whose raw stream fails to decode,
`getImageStreamProperties` returns a `stream` node holding exactly one
stream-level exception record and nothing else, without escalating the
failure to the caller. -/
theorem C4_decode_contained (e : String) (pageNo : Nat) :
    getImageStreamProperties (Except.error e) pageNo =
      Except.ok (Elt.node "stream" [] none
        [Elt.node "exceptions" [] none
          [Elt.node "exception" [] (some e) []]]) := rfl

/-- C5 counterexample: the claim says the extractor records the fields at
their fixed positions in the tuple the spec's collaborator contract
describes, `(xref, width, height, bpc, colorspace, altColorspace, name,
filter)`, as a non-failing mapping.  Fed a tuple of exactly that shape,
the code raises `IndexError` (it indexes position 8, beyond the contract's
eight slots), because the actual collaborator tuple carries an `smask`
slot at position 1 that the contract sentence omits. -/
theorem C5_counterexample :
    getImageDictProperties
      (specContractTuple (PVal.pint 7) (PVal.pint 100) (PVal.pint 200)
        (PVal.pint 8) (PVal.pstr "DeviceRGB") (PVal.pstr "")
        (PVal.pstr "Im0") (PVal.pstr "DCTDecode")) 1 =
      Except.error "IndexError: tuple index out of range" := rfl

/-- C5 amended: for every image-reference tuple laid out as the
enumeration collaborator actually supplies it — `(xref, smask, width,
height, bpc, colorspace, alt_colorspace, name, filter)` — the extractor is
a non-failing mapping recording exactly xref, width, height, bpc,
colorspace, altcolorspace and filter from positions 0, 2, 3, 4, 5, 6, 8
(smask and name are skipped). -/
theorem C5_amended (x s w h b c a n f : PVal) (pageNo : Nat) :
    getImageDictProperties [x, s, w, h, b, c, a, n, f] pageNo =
      Except.ok (dictionaryToElt "dict"
        [("xref", x), ("width", w), ("height", h), ("bpc", b),
         ("colorspace", c), ("altcolorspace", a), ("filter", f)]) := rfl

/-! Dictionary lemmas: Python-dict assignment semantics. -/

/-- Key membership distributes over list append. -/
theorem hasKey_append (a b : PDict) (q : String) :
    hasKey (a ++ b) q = (hasKey a q || hasKey b q) := by
  induction a with
  | nil => simp [hasKey]
  | cons kv d ih =>
    by_cases hk : kv.1 = q <;> simp [hasKey, hk, ih]

/-- Key membership after the in-place update branch of `dictSet`. -/
theorem hasKey_mapSet (d : PDict) (k : String) (v : PVal) (q : String) :
    hasKey (d.map (fun kv => if kv.1 = k then (k, v) else kv)) q =
      if q = k then hasKey d k else hasKey d q := by
  induction d with
  | nil => by_cases hq : q = k <;> simp [hasKey, hq]
  | cons kv d ih =>
    simp only [List.map_cons]
    by_cases hk : kv.1 = k
    · by_cases hq : q = k
      · subst hq; simp [hasKey, hk]
      · have h1 : ¬ k = q := fun hh => hq hh.symm
        have h2 : ¬ kv.1 = q := by rw [hk]; exact h1
        have hhead : (if kv.1 = k then (k, v) else kv) = (k, v) := by
          rw [if_pos hk]
        rw [hhead]
        simp [hasKey, h1, h2, hq, ih]
    · by_cases hq : q = k
      · subst hq; simp [hasKey, hk, ih]
      · by_cases hq2 : kv.1 = q <;> simp [hasKey, hk, hq, hq2, ih]

/-- Key membership after a Python dict assignment. -/
theorem hasKey_dictSet (d : PDict) (k : String) (v : PVal) (q : String) :
    hasKey (dictSet d k v) q = if q = k then true else hasKey d q := by
  unfold dictSet
  by_cases hp : hasKey d k
  · rw [if_pos hp, hasKey_mapSet]
    by_cases hq : q = k <;> simp [hq, hp]
  · rw [if_neg hp, hasKey_append]
    by_cases hq : q = k
    · subst hq; simp [hasKey]
    · have : ¬ k = q := fun hh => hq hh.symm
      simp [hq, hasKey, this]

/-- Looking up an updated key in the in-place update branch. -/
theorem dictLookup_mapSet (k : String) (v : PVal) :
    ∀ d : PDict, hasKey d k = true →
      dictLookup (d.map (fun kv => if kv.1 = k then (k, v) else kv)) k = some v := by
  intro d
  induction d with
  | nil => simp [hasKey]
  | cons kv d ih =>
    intro hp
    by_cases hk : kv.1 = k
    · simp [hk, dictLookup]
    · have hp2 : hasKey d k = true := by simpa [hasKey, hk] using hp
      simp [hk, dictLookup, ih hp2]

/-- Looking up a freshly appended key. -/
theorem dictLookup_appendNew (k : String) (v : PVal) :
    ∀ d : PDict, hasKey d k = false →
      dictLookup (d ++ [(k, v)]) k = some v := by
  intro d
  induction d with
  | nil => simp [dictLookup]
  | cons kv d ih =>
    intro hp
    by_cases hk : kv.1 = k
    · simp [hasKey, hk] at hp
    · have hp2 : hasKey d k = false := by simpa [hasKey, hk] using hp
      simp [dictLookup, hk, ih hp2]

/-- Python dict assignment followed by lookup of the same key yields the
assigned value: last write wins. -/
theorem dictLookup_dictSet (d : PDict) (k : String) (v : PVal) :
    dictLookup (dictSet d k v) k = some v := by
  unfold dictSet
  by_cases hp : hasKey d k
  · rw [if_pos hp]; exact dictLookup_mapSet k v d hp
  · rw [if_neg hp]; exact dictLookup_appendNew k v d (by simpa using hp)

/-- C7: the decoder-metadata merge semantics.  Entry by entry: a
byte-valued entry is recorded as the fixed sentinel string `bytestream`; a
pair keyed `dpi` is split into `ppi_x`/`ppi_y`; a pair keyed
`jfif_density` is split into `jfif_density_x`/`jfif_density_y`; any other
pair-valued entry is dropped; every other entry is copied verbatim under
its own key.  The merge processes entries left to right (the append law),
and an assignment to an existing key overwrites its value: last write
wins in merge order. -/
theorem C7_merge :
    (∀ (d : PDict) (k : String) (b : List Nat),
      mergeInfo d [(k, InfoVal.bytes b)] = dictSet d k (PVal.pstr "bytestream")) ∧
    (∀ (d : PDict) (a b : PVal),
      mergeInfo d [("dpi", InfoVal.pair a b)] =
        dictSet (dictSet d "ppi_x" a) "ppi_y" b) ∧
    (∀ (d : PDict) (a b : PVal),
      mergeInfo d [("jfif_density", InfoVal.pair a b)] =
        dictSet (dictSet d "jfif_density_x" a) "jfif_density_y" b) ∧
    (∀ (d : PDict) (k : String) (a b : PVal),
      k ≠ "dpi" → k ≠ "jfif_density" →
      mergeInfo d [(k, InfoVal.pair a b)] = d) ∧
    (∀ (d : PDict) (k : String) (v : PVal),
      mergeInfo d [(k, InfoVal.scalar v)] = dictSet d k v) ∧
    (∀ (d : PDict) (i1 i2 : List (String × InfoVal)),
      mergeInfo d (i1 ++ i2) = mergeInfo (mergeInfo d i1) i2) ∧
    (∀ (d : PDict) (k : String) (v : PVal),
      dictLookup (dictSet d k v) k = some v) := by
  refine ⟨fun d k b => rfl, fun d a b => rfl, fun d a b => rfl,
    ?_, fun d k v => rfl, fun d i1 i2 => List.foldl_append _ _ _ _,
    dictLookup_dictSet⟩
  intro d k a b h1 h2
  simp [mergeInfo, infoStep, h1, h2]

/-- Witness for C7: a pair-valued metadata entry under any other key
(here PIL's `chromaticity`) is dropped by the merge. -/
theorem C7_witness :
    mergeInfo [] [("chromaticity", InfoVal.pair (PVal.pint 1) (PVal.pint 2))] = [] :=
  C7_merge.2.2.2.1 [] "chromaticity" (PVal.pint 1) (PVal.pint 2)
    (by decide) (by decide)

/-! Exception-record collection over report trees. -/

mutual
/-- All elements tagged `exception` in a tree (the exception records). -/
def excNodes : Elt → List Elt
  | Elt.node t a x cs =>
    (if t = "exception" then [Elt.node t a x cs] else []) ++ excNodesL cs
/-- All elements tagged `exception` in a forest. -/
def excNodesL : List Elt → List Elt
  | [] => []
  | c :: cs => excNodes c ++ excNodesL cs
end

/-- The message texts of all exception records in a tree. -/
def excTexts (e : Elt) : List String :=
  (excNodes e).filterMap Elt.text

/-- Forest collection distributes over append. -/
theorem excNodesL_append (a b : List Elt) :
    excNodesL (a ++ b) = excNodesL a ++ excNodesL b := by
  induction a with
  | nil => rfl
  | cons c cs ih => simp [excNodesL, ih]

/-- Exception leaves collect to themselves. -/
theorem excNodesL_msgs (ms : List String) :
    excNodesL (ms.map (fun m => Elt.node "exception" [] (some m) [])) =
      ms.map (fun m => Elt.node "exception" [] (some m) []) := by
  induction ms with
  | nil => rfl
  | cons m ms ih => simp [excNodesL, excNodes, ih]

/-- Unfolding equation for `excNodes` on a node. -/
theorem excNodes_node (t : String) (a : List (String × String))
    (x : Option String) (cs : List Elt) :
    excNodes (Elt.node t a x cs) =
      (if t = "exception" then [Elt.node t a x cs] else []) ++ excNodesL cs := by
  rw [excNodes]

/-- Exception-leaf texts collect to the message list. -/
theorem filterMap_text_msgs (ms : List String) :
    (ms.map (fun m => Elt.node "exception" [] (some m) [])).filterMap Elt.text = ms := by
  induction ms with
  | nil => rfl
  | cons m ms ih => simp [List.filterMap_cons, Elt.text, ih]

/-- The texts of an `exceptions` container are exactly its messages. -/
theorem excTexts_exceptionsElt (ms : List String) : excTexts (exceptionsElt ms) = ms := by
  unfold excTexts exceptionsElt
  rw [excNodes_node, if_neg (by decide), List.nil_append, excNodesL_msgs]
  exact filterMap_text_msgs ms

/-- Every message attached to a stream node through its `exceptions` child
is among the tree's exception texts. -/
theorem excTexts_streamNode_mem (d : PDict) (ms : List String) (m : String)
    (hm : m ∈ ms) :
    m ∈ excTexts ((dictionaryToElt "stream" d).appendChild (exceptionsElt ms)) := by
  have h1 : (dictionaryToElt "stream" d).appendChild (exceptionsElt ms) =
      Elt.node "stream" [] none
        ((d.map (fun kv => Elt.node kv.1 [] (some (pvalStr kv.2)) [])) ++
          [exceptionsElt ms]) := rfl
  rw [h1]
  unfold excTexts
  rw [excNodes_node, if_neg (by decide), List.nil_append, excNodesL_append]
  have h2 : excNodesL [exceptionsElt ms] = excNodes (exceptionsElt ms) := by
    rw [excNodesL, excNodesL, List.append_nil]
  rw [h2, List.filterMap_append]
  refine List.mem_append_right _ ?_
  have h3 : (excNodes (exceptionsElt ms)).filterMap Elt.text = ms :=
    excTexts_exceptionsElt ms
  rw [h3]
  exact hm

/-! Key membership through the stream-property stages. -/

/-- One merge iteration leaves foreign keys untouched. -/
theorem hasKey_infoStep (d : PDict) (kv : String × InfoVal) (q : String)
    (hq : kv.1 ≠ q) (h1 : q ≠ "ppi_x") (h2 : q ≠ "ppi_y")
    (h3 : q ≠ "jfif_density_x") (h4 : q ≠ "jfif_density_y") :
    hasKey (infoStep d kv) q = hasKey d q := by
  have hqk : ¬ q = kv.1 := fun hh => hq hh.symm
  cases hv : kv.2 with
  | bytes b => simp [infoStep, hv, hasKey_dictSet, hqk]
  | pair a b =>
    by_cases hdpi : kv.1 = "dpi"
    · simp [infoStep, hv, hdpi, hasKey_dictSet, h1, h2]
    · by_cases hjf : kv.1 = "jfif_density"
      · simp [infoStep, hv, hdpi, hjf, hasKey_dictSet, h3, h4]
      · simp [infoStep, hv, hdpi, hjf]
  | scalar v => simp [infoStep, hv, hasKey_dictSet, hqk]

/-- The merge loop leaves keys untouched that no metadata entry names and
that are none of the four split-target keys. -/
theorem hasKey_mergeInfo (q : String) (h1 : q ≠ "ppi_x") (h2 : q ≠ "ppi_y")
    (h3 : q ≠ "jfif_density_x") (h4 : q ≠ "jfif_density_y") :
    ∀ (info : List (String × InfoVal)) (d : PDict),
      (∀ kv ∈ info, kv.1 ≠ q) →
      hasKey (mergeInfo d info) q = hasKey d q := by
  intro info
  induction info with
  | nil => intro d _; rfl
  | cons kv rest ih =>
    intro d h
    have hstep := hasKey_infoStep d kv q (h kv (by simp)) h1 h2 h3 h4
    have hfold : mergeInfo d (kv :: rest) = mergeInfo (infoStep d kv) rest := rfl
    rw [hfold, ih (infoStep d kv) (fun x hx => h x (by simp [hx]))]
    exact hstep

/-- The ICC step only ever touches its two profile keys. -/
theorem hasKey_iccStage (im : PILImage) (props : PDict) (q : String)
    (h1 : q ≠ "icc_profile_name") (h2 : q ≠ "icc_profile_description") :
    hasKey (iccStage im props).1 q = hasKey props q := by
  unfold iccStage
  cases hli : im.info.lookup "icc_profile" with
  | none => rfl
  | some v =>
    cases hic : im.iccResult with
    | ok nd => simp [hasKey_dictSet, h1, h2]
    | error e => rfl

/-- Tag membership distributes over child-list append. -/
theorem childHasTag_append (a b : List Elt) (t : String) :
    childHasTag (a ++ b) t = (childHasTag a t || childHasTag b t) := by
  induction a with
  | nil => simp [childHasTag]
  | cons c cs ih => by_cases hc : c.tag = t <;> simp [childHasTag, hc, ih]

/-- A dict element has a child of tag `t` exactly when the dict has key `t`. -/
theorem childHasTag_dict (d : PDict) (t : String) :
    childHasTag (d.map (fun kv => Elt.node kv.1 [] (some (pvalStr kv.2)) [])) t =
      hasKey d t := by
  induction d with
  | nil => rfl
  | cons kv rest ih =>
    by_cases hk : kv.1 = t <;> simp [childHasTag, Elt.tag, hasKey, hk, ih]

/-- Child tags of a stream node: its property keys plus the appended child. -/
theorem hasChildTag_streamNode (d : PDict) (c : Elt) (t : String) :
    Elt.hasChildTag ((dictionaryToElt "stream" d).appendChild c) t =
      (hasKey d t || (if c.tag = t then true else false)) := by
  simp only [Elt.hasChildTag, dictionaryToElt, Elt.appendChild, Elt.children,
    childHasTag_append, childHasTag_dict]
  simp [childHasTag]

/-- Derived bits per component once the mode lookup has succeeded. -/
theorem getBPC_ok (im : PILImage) (bpp : Nat)
    (hbpp : mode_to_bpp.lookup im.mode = some bpp) :
    getBPC im = Except.ok
      (if im.bands ≠ 0 then Int.ofNat (bpp / im.bands) else -9999) := by
  unfold getBPC
  rw [hbpp]
  show (if im.bands ≠ 0 then Except.ok (Int.ofNat (bpp / im.bands))
    else Except.ok (-9999) : Except String Int) = _
  by_cases hb : im.bands ≠ 0
  · rw [if_pos hb, if_pos hb]
  · rw [if_neg hb, if_neg hb]

/-- Successful-decode unfolding of `getImageStreamProperties` in terms of
its stages, given that `getBPC` succeeded. -/
theorem getISP_ok (im : PILImage) (n : Nat) (v : Int)
    (hv : getBPC im = Except.ok v) :
    getImageStreamProperties (Except.ok im) n =
      Except.ok ((dictionaryToElt "stream"
          (iccStage im (mergeInfo (jpegStage im (baseStreamProps im v)).1 im.info)).1).appendChild
        (exceptionsElt ((jpegStage im (baseStreamProps im v)).2 ++
          (iccStage im (mergeInfo (jpegStage im (baseStreamProps im v)).1 im.info)).2))) := by
  simp [getImageStreamProperties, hv]

/-- The quality keys are present after the JPEG step exactly when the
format is JPEG and the collaborator succeeded. -/
theorem hasKey_jpegStage_q (im : PILImage) (v : Int) :
    (hasKey (jpegStage im (baseStreamProps im v)).1 "JPEGQuality" = true ↔
      (im.format = "JPEG" ∧ isOkE im.jpegQuality = true)) ∧
    (hasKey (jpegStage im (baseStreamProps im v)).1 "NSE_JPEGQuality" = true ↔
      (im.format = "JPEG" ∧ isOkE im.jpegQuality = true)) := by
  have hbase1 : hasKey (baseStreamProps im v) "JPEGQuality" = false := rfl
  have hbase2 : hasKey (baseStreamProps im v) "NSE_JPEGQuality" = false := rfl
  unfold jpegStage
  by_cases hf : im.format = "JPEG"
  · rw [if_pos hf]
    cases hjq : im.jpegQuality with
    | ok q =>
      constructor
      · rw [hasKey_dictSet, if_neg (by decide), hasKey_dictSet, if_pos rfl]
        simp [hf, isOkE]
      · rw [hasKey_dictSet, if_pos rfl]
        simp [hf, isOkE]
    | error e =>
      constructor
      · simp [hbase1, isOkE]
      · simp [hbase2, isOkE]
  · rw [if_neg hf]
    constructor
    · simp [hbase1, hf]
    · simp [hbase2, hf]

/-- Total projection out of a successful extraction result. -/
def okElt : Except String Elt → Elt
  | Except.ok e => e
  | Except.error _ => Elt.node "" [] none []

/-- C6 amended: for every successfully decoded image whose mode the bpc
table recognises and whose decoder metadata carries no entry itself keyed
`JPEGQuality` or `NSE_JPEGQuality`, the quality fields are present in the
stream node if and only if the decoded format is JPEG and the quality
collaborator succeeded; when the collaborator fails its message is
recorded as a stream-level exception and the rest of the node is still
produced.  (The unamended only-if direction fails when decoder metadata
supplies an identically named key — see the counterexample.) -/
theorem C6_amended (im : PILImage) (n : Nat)
    (hmode : (mode_to_bpp.lookup im.mode).isSome = true)
    (hinfo : ∀ kv ∈ im.info, kv.1 ≠ "JPEGQuality" ∧ kv.1 ≠ "NSE_JPEGQuality") :
    ∃ elt, getImageStreamProperties (Except.ok im) n = Except.ok elt ∧
      (Elt.hasChildTag elt "JPEGQuality" = true ↔
        (im.format = "JPEG" ∧ isOkE im.jpegQuality = true)) ∧
      (Elt.hasChildTag elt "NSE_JPEGQuality" = true ↔
        (im.format = "JPEG" ∧ isOkE im.jpegQuality = true)) ∧
      (∀ msg, im.format = "JPEG" → im.jpegQuality = Except.error msg →
        msg ∈ excTexts elt) := by
  obtain ⟨bpp, hbpp⟩ := Option.isSome_iff_exists.mp hmode
  obtain ⟨v, hv⟩ : ∃ v, getBPC im = Except.ok v :=
    ⟨_, getBPC_ok im bpp hbpp⟩
  refine ⟨_, getISP_ok im n v hv, ?_, ?_, ?_⟩
  · rw [hasChildTag_streamNode]
    have htag : (exceptionsElt ((jpegStage im (baseStreamProps im v)).2 ++
        (iccStage im (mergeInfo (jpegStage im (baseStreamProps im v)).1 im.info)).2)).tag =
        "exceptions" := rfl
    rw [htag, if_neg (by decide), Bool.or_false]
    rw [hasKey_iccStage _ _ _ (by decide) (by decide)]
    rw [hasKey_mergeInfo "JPEGQuality" (by decide) (by decide) (by decide) (by decide)
      im.info _ (fun kv hkv => (hinfo kv hkv).1)]
    exact (hasKey_jpegStage_q im v).1
  · rw [hasChildTag_streamNode]
    have htag : (exceptionsElt ((jpegStage im (baseStreamProps im v)).2 ++
        (iccStage im (mergeInfo (jpegStage im (baseStreamProps im v)).1 im.info)).2)).tag =
        "exceptions" := rfl
    rw [htag, if_neg (by decide), Bool.or_false]
    rw [hasKey_iccStage _ _ _ (by decide) (by decide)]
    rw [hasKey_mergeInfo "NSE_JPEGQuality" (by decide) (by decide) (by decide) (by decide)
      im.info _ (fun kv hkv => (hinfo kv hkv).2)]
    exact (hasKey_jpegStage_q im v).2
  · intro msg hf hjq
    apply excTexts_streamNode_mem
    have hsj : (jpegStage im (baseStreamProps im v)).2 = [msg] := by
      simp [jpegStage, hf, hjq]
    rw [hsj]
    exact List.mem_append_left _ (List.mem_singleton.mpr rfl)

/-- A decoded JPEG image on which the quality collaborator succeeds. -/
def imJ : PILImage :=
  { format := "JPEG", width := 100, height := 100, mode := "RGB", bands := 3,
    info := [], jpegQuality := Except.ok (PVal.pint 85, PVal.pint 1, PVal.pint 0),
    iccResult := Except.error "not invoked" }

/-- A decoded non-JPEG image whose decoder metadata itself carries an
entry keyed `JPEGQuality` (PIL copies e.g. PNG text-chunk keys into
`im.info` verbatim). -/
def imCollide : PILImage :=
  { format := "PNG", width := 10, height := 10, mode := "RGB", bands := 3,
    info := [("JPEGQuality", InfoVal.scalar (PVal.pint 95))],
    jpegQuality := Except.error "not invoked",
    iccResult := Except.error "not invoked" }

/-- C6 counterexample: the claim's `if and only if` fails in the only-if
direction: this successfully decoded image is not a JPEG and the quality
collaborator never ran, yet its stream node carries a `JPEGQuality` field,
copied verbatim from a decoder metadata entry of that name. -/
theorem C6_counterexample :
    imCollide.format ≠ "JPEG" ∧
    Elt.hasChildTag (okElt (getImageStreamProperties (Except.ok imCollide) 1))
      "JPEGQuality" = true := ⟨by decide, rfl⟩

/-- Witness for C6 at a concrete JPEG image with successful estimation. -/
theorem C6_witness :
    Elt.hasChildTag (okElt (getImageStreamProperties (Except.ok imJ) 1))
      "JPEGQuality" = true := by
  obtain ⟨elt, hok, h1, h2, h3⟩ := C6_amended imJ 1 rfl
    (fun kv hkv => absurd hkv (List.not_mem_nil kv))
  have he : okElt (getImageStreamProperties (Except.ok imJ) 1) = elt := by
    rw [hok]
    rfl
  rw [he]
  exact h1.mpr ⟨rfl, rfl⟩

/-- Whether a fetched stream cannot make the extractor raise: a decode
failure is contained, and a decoded image must carry a mode the bpc table
recognises (otherwise `getBPC` raises `KeyError` outside any `try`). -/
def streamSafe : RawStream → Bool
  | Except.error _ => true
  | Except.ok im => (mode_to_bpp.lookup im.mode).isSome

/-- Fetch obligations for one image reference: the dictionary extraction
and xref read-back succeed, and the raw-stream fetch returns a stream that
cannot make the extractor raise. -/
def imageFetchSafe (doc : Doc) (image : List PVal) : Prop :=
  ∃ d x s, getImageDictProperties image 0 = Except.ok d ∧
    xrefFromDictElt d = Except.ok x ∧
    doc.streams x = Except.ok s ∧ streamSafe s = true

/-- A safe stream never makes the stream extractor raise. -/
theorem isp_ok_of_safe (s : RawStream) (n : Nat) (h : streamSafe s = true) :
    isOkE (getImageStreamProperties s n) = true := by
  cases s with
  | error e => rfl
  | ok im =>
    have hm : (mode_to_bpp.lookup im.mode).isSome = true := h
    obtain ⟨bpp, hbpp⟩ := Option.isSome_iff_exists.mp hm
    rw [getISP_ok im n _ (getBPC_ok im bpp hbpp)]
    rfl

/-- A safe image reference never makes the image extractor raise. -/
theorem gip_ok_of_safe (doc : Doc) (img : List PVal) (n : Nat)
    (h : imageFetchSafe doc img) :
    isOkE (getImageProperties doc img n) = true := by
  obtain ⟨d, x, s, hd, hx, hs, hsafe⟩ := h
  have hd2 : getImageDictProperties img n = Except.ok d := hd
  unfold getImageProperties
  simp only [hd2, hx, hs]
  have hok := isp_ok_of_safe s n hsafe
  cases hisp : getImageStreamProperties s n with
  | error e => rw [hisp] at hok; simp [isOkE] at hok
  | ok e => simp [hisp, isOkE]

/-- Safe image lists never make the per-page image loop raise. -/
theorem buildImages_ok_of_safe (doc : Doc) :
    ∀ (imgs : List (List PVal)) (n : Nat),
      (∀ img ∈ imgs, imageFetchSafe doc img) →
      isOkE (buildImages doc imgs n) = true := by
  intro imgs
  induction imgs with
  | nil => intro n _; rfl
  | cons img rest ih =>
    intro n h
    unfold buildImages
    have h1 := gip_ok_of_safe doc img n (h img (by simp))
    cases hg : getImageProperties doc img n with
    | error e => rw [hg] at h1; simp [isOkE] at h1
    | ok e1 =>
      have h2 := ih n (fun x hx => h x (by simp [hx]))
      cases hb : buildImages doc rest n with
      | error e => rw [hb] at h2; simp [isOkE] at h2
      | ok es => simp [hg, hb, isOkE]

/-- Safe pages never make the page loop raise. -/
theorem buildPages_ok_of_safe (doc : Doc) :
    ∀ (ps : List Page) (n : Nat),
      (∀ p ∈ ps, ∀ img ∈ p.images, imageFetchSafe doc img) →
      isOkE (buildPages doc ps n) = true := by
  intro ps
  induction ps with
  | nil => intro n _; rfl
  | cons p rest ih =>
    intro n h
    unfold buildPages
    have h1 : isOkE (getPageProperties doc p n) = true := by
      unfold getPageProperties
      have hbi := buildImages_ok_of_safe doc p.images n (h p (by simp))
      cases hb : buildImages doc p.images n with
      | error e => rw [hb] at hbi; simp [isOkE] at hbi
      | ok es => simp [hb, isOkE]
    cases hg : getPageProperties doc p n with
    | error e => rw [hg] at h1; simp [isOkE] at h1
    | ok e1 =>
      have h2 := ih (n + 1) (fun x hx => h x (by simp [hx]))
      cases hb : buildPages doc rest (n + 1) with
      | error e => rw [hb] at h2; simp [isOkE] at h2
      | ok es => simp [hg, hb, isOkE]

/-- C1 amended: failures decoding a raw stream, estimating JPEG quality or
parsing an ICC profile are contained — the stream extractor returns
normally for every safe stream — and `getProperties` returns normally
whenever every image's raw-stream fetch succeeds and every decoded image
carries a recognised mode.  (As stated the claim is false: raw-stream
fetch failures and unrecognised-mode failures in bits-per-component
derivation propagate out of `getProperties` — see the counterexample.) -/
theorem C1_amended :
    (∀ (s : RawStream) (n : Nat), streamSafe s = true →
      isOkE (getImageStreamProperties s n) = true) ∧
    (∀ (PDF : PDFFile) (doc : Doc), PDF.openResult = Except.ok doc →
      (∀ p ∈ doc.pages, ∀ img ∈ p.images, imageFetchSafe doc img) →
      isOkE (getProperties PDF) = true) := by
  refine ⟨isp_ok_of_safe, ?_⟩
  intro PDF doc h hsafe
  unfold getProperties
  simp only [h]
  by_cases hrc : doc.authRc = 0
  · simp [hrc, isOkE]
  · rw [if_neg hrc]
    have hbp := buildPages_ok_of_safe doc doc.pages 1 hsafe
    cases hb : buildPages doc doc.pages 1 with
    | error e => rw [hb] at hbp; simp [isOkE] at hbp
    | ok es => simp [hb, isOkE]

/-- Witness for C1 at a concrete document whose single image stream fails
to decode: the failure is contained and extraction completes. -/
theorem C1_witness : isOkE (getProperties pdfDecodeFail) = true := by
  refine C1_amended.2 pdfDecodeFail docDecodeFail rfl ?_
  intro p hp img himg
  have hp2 : p = ⟨[imgRef5]⟩ := by
    simpa [docDecodeFail] using hp
  subst hp2
  have himg2 : img = imgRef5 := by
    simpa using himg
  subst himg2
  exact ⟨_, 5, Except.error "broken stream", rfl, rfl, rfl, rfl⟩

/-! Well-formedness of exception records: every record carries a message. -/

/-- Every exception record in the tree carries a message text. -/
def goodExc (e : Elt) : Prop :=
  ∀ x ∈ excNodes e, x.text.isSome = true

/-- Collection over a forest finds its witnesses inside some tree. -/
theorem mem_excNodesL (x : Elt) :
    ∀ (cs : List Elt), x ∈ excNodesL cs → ∃ c ∈ cs, x ∈ excNodes c := by
  intro cs
  induction cs with
  | nil => intro h; simp [excNodesL] at h
  | cons c cs ih =>
    intro h
    rw [excNodesL] at h
    rcases List.mem_append.mp h with h1 | h2
    · exact ⟨c, by simp, h1⟩
    · obtain ⟨c2, hc2, hx⟩ := ih h2
      exact ⟨c2, by simp [hc2], hx⟩

/-- Build a well-formed node out of well-formed children. -/
theorem goodExc_node (t : String) (a : List (String × String)) (x : Option String)
    (cs : List Elt) (ht : t = "exception" → x.isSome = true)
    (hcs : ∀ c ∈ cs, goodExc c) : goodExc (Elt.node t a x cs) := by
  intro y hy
  rw [excNodes_node] at hy
  rcases List.mem_append.mp hy with h1 | h2
  · by_cases he : t = "exception"
    · rw [if_pos he] at h1
      simp at h1
      subst h1
      exact ht he
    · rw [if_neg he] at h1
      simp at h1
  · obtain ⟨c, hc, hx⟩ := mem_excNodesL y cs h2
    exact hcs c hc y hx

/-- A leaf with a text is well-formed whatever its tag. -/
theorem goodExc_leaf (t : String) (a : List (String × String)) (s : String) :
    goodExc (Elt.node t a (some s) []) :=
  goodExc_node t a (some s) [] (fun _ => rfl) (fun c hc => absurd hc (List.not_mem_nil c))

/-- Dict elements (whose own tag is never `exception`) are well-formed. -/
theorem goodExc_dictElt (nm : String) (d : PDict) (hnm : nm ≠ "exception") :
    goodExc (dictionaryToElt nm d) := by
  unfold dictionaryToElt
  apply goodExc_node _ _ _ _ (fun hh => absurd hh hnm)
  intro c hc
  obtain ⟨kv, _, rfl⟩ := List.mem_map.mp hc
  exact goodExc_leaf _ _ _

/-- Exception containers are well-formed: every record holds its message. -/
theorem goodExc_exceptionsElt (ms : List String) : goodExc (exceptionsElt ms) := by
  unfold exceptionsElt
  apply goodExc_node _ _ _ _ (fun hh => absurd hh (by decide))
  intro c hc
  obtain ⟨m, _, rfl⟩ := List.mem_map.mp hc
  exact goodExc_leaf _ _ _

/-- Appending a well-formed child preserves well-formedness. -/
theorem goodExc_appendChild (e c : Elt) (he : goodExc e) (hc : goodExc c) :
    goodExc (e.appendChild c) := by
  cases e with
  | node t a x cs =>
    intro y hy
    rw [Elt.appendChild] at hy
    rw [excNodes_node, excNodesL_append] at hy
    rcases List.mem_append.mp hy with h1 | h2
    · by_cases ht : t = "exception"
      · rw [if_pos ht] at h1
        simp at h1
        subst h1
        have hroot : Elt.node t a x cs ∈ excNodes (Elt.node t a x cs) := by
          rw [excNodes_node, if_pos ht]
          simp
        exact he (Elt.node t a x cs) hroot
      · rw [if_neg ht] at h1
        simp at h1
    · rcases List.mem_append.mp h2 with h3 | h4
      · apply he
        rw [excNodes_node]
        exact List.mem_append_right _ h3
      · have h6 : excNodesL [c] = excNodes c := by
          rw [excNodesL, excNodesL, List.append_nil]
        rw [h6] at h4
        exact hc y h4

/-- A successful dictionary extraction is a `dict` element. -/
theorem gidp_shape (img : List PVal) (n : Nat) (d : Elt)
    (h : getImageDictProperties img n = Except.ok d) :
    ∃ l : PDict, d = dictionaryToElt "dict" l := by
  unfold getImageDictProperties at h
  cases h0 : pyIndex img 0 with
  | error e => simp [h0] at h
  | ok x0 =>
  simp only [h0] at h
  cases h2 : pyIndex img 2 with
  | error e => simp [h2] at h
  | ok x2 =>
  simp only [h2] at h
  cases h3 : pyIndex img 3 with
  | error e => simp [h3] at h
  | ok x3 =>
  simp only [h3] at h
  cases h4 : pyIndex img 4 with
  | error e => simp [h4] at h
  | ok x4 =>
  simp only [h4] at h
  cases h5 : pyIndex img 5 with
  | error e => simp [h5] at h
  | ok x5 =>
  simp only [h5] at h
  cases h6 : pyIndex img 6 with
  | error e => simp [h6] at h
  | ok x6 =>
  simp only [h6] at h
  cases h8 : pyIndex img 8 with
  | error e => simp [h8] at h
  | ok x8 =>
  simp only [h8] at h
  have he := Except.ok.inj h
  exact ⟨_, he.symm⟩

/-- Every stream node the extractor returns is well-formed. -/
theorem goodExc_isp (s : RawStream) (n : Nat) (e : Elt)
    (h : getImageStreamProperties s n = Except.ok e) : goodExc e := by
  cases s with
  | error msg =>
    have he := Except.ok.inj h
    subst he
    exact goodExc_appendChild _ _ (goodExc_dictElt _ _ (by decide))
      (goodExc_exceptionsElt _)
  | ok im =>
    cases hbpc : getBPC im with
    | error msg =>
      unfold getImageStreamProperties at h
      simp [hbpc] at h
    | ok v =>
      rw [getISP_ok im n v hbpc] at h
      have he := Except.ok.inj h
      subst he
      exact goodExc_appendChild _ _ (goodExc_dictElt _ _ (by decide))
        (goodExc_exceptionsElt _)

/-- Every image node the extractor returns is well-formed. -/
theorem goodExc_gip (doc : Doc) (img : List PVal) (n : Nat) (e : Elt)
    (h : getImageProperties doc img n = Except.ok e) : goodExc e := by
  unfold getImageProperties at h
  cases hd : getImageDictProperties img n with
  | error e2 => simp [hd] at h
  | ok d =>
  simp only [hd] at h
  cases hx : xrefFromDictElt d with
  | error e2 => simp [hx] at h
  | ok x =>
  simp only [hx] at h
  cases hs : doc.streams x with
  | error e2 => simp [hs] at h
  | ok s =>
  simp only [hs] at h
  cases hisp : getImageStreamProperties s n with
  | error e2 => simp [hisp] at h
  | ok pse =>
  simp only [hisp] at h
  have he := Except.ok.inj h
  subst he
  obtain ⟨l, hl⟩ := gidp_shape img n d hd
  apply goodExc_node _ _ _ _ (fun hh => absurd hh (by decide))
  intro c hc
  simp at hc
  rcases hc with hc | hc
  · rw [hc, hl]
    exact goodExc_dictElt _ _ (by decide)
  · rw [hc]
    exact goodExc_isp s n pse hisp

/-- Every element the per-page image loop returns is well-formed. -/
theorem goodExc_buildImages (doc : Doc) :
    ∀ (imgs : List (List PVal)) (n : Nat) (es : List Elt),
      buildImages doc imgs n = Except.ok es → ∀ e ∈ es, goodExc e := by
  intro imgs
  induction imgs with
  | nil =>
    intro n es h e he
    have h0 : buildImages doc [] n = Except.ok [] := rfl
    rw [h0] at h
    have := Except.ok.inj h
    subst this
    simp at he
  | cons img rest ih =>
    intro n es h e he
    unfold buildImages at h
    cases hg : getImageProperties doc img n with
    | error e2 => simp [hg] at h
    | ok e1 =>
    simp only [hg] at h
    cases hb : buildImages doc rest n with
    | error e2 => simp [hb] at h
    | ok es2 =>
    simp only [hb] at h
    have hh := Except.ok.inj h
    subst hh
    rcases List.mem_cons.mp he with he1 | he2
    · subst he1
      exact goodExc_gip doc img n e hg
    · exact ih n es2 hb e he2

/-- Index structure of the per-page image loop: as many image elements as
references, the elements in enumeration order. -/
theorem buildImages_spec (doc : Doc) :
    ∀ (imgs : List (List PVal)) (n : Nat) (es : List Elt),
      buildImages doc imgs n = Except.ok es →
      es.length = imgs.length ∧
      ∀ j img, imgs.get? j = some img →
        ∃ e, es.get? j = some e ∧ getImageProperties doc img n = Except.ok e := by
  intro imgs
  induction imgs with
  | nil =>
    intro n es h
    have h0 : buildImages doc [] n = Except.ok [] := rfl
    rw [h0] at h
    have := Except.ok.inj h
    subst this
    exact ⟨rfl, fun j img hj => by simp at hj⟩
  | cons img0 rest ih =>
    intro n es h
    unfold buildImages at h
    cases hg : getImageProperties doc img0 n with
    | error e2 => simp [hg] at h
    | ok e1 =>
    simp only [hg] at h
    cases hb : buildImages doc rest n with
    | error e2 => simp [hb] at h
    | ok es2 =>
    simp only [hb] at h
    have hh := Except.ok.inj h
    subst hh
    obtain ⟨hlen, hidx⟩ := ih n es2 hb
    refine ⟨by simp [hlen], ?_⟩
    intro j img hj
    cases j with
    | zero =>
      simp at hj
      subst hj
      exact ⟨e1, rfl, hg⟩
    | succ j =>
      rw [List.get?_cons_succ] at hj ⊢
      exact hidx j img hj

/-- Structure of one page element: the `number` attribute is the assigned
page number, one image child per enumerated reference, in order. -/
theorem pageProps_spec (doc : Doc) (p : Page) (n : Nat) (e : Elt)
    (h : getPageProperties doc p n = Except.ok e) :
    Elt.attr e "number" = some (toString n) ∧
    e.children.length = p.images.length ∧
    (∀ j img, p.images.get? j = some img →
      ∃ ie, e.children.get? j = some ie ∧
        getImageProperties doc img n = Except.ok ie) := by
  unfold getPageProperties at h
  cases hb : buildImages doc p.images n with
  | error e2 => simp [hb] at h
  | ok es =>
  simp only [hb] at h
  have hh := Except.ok.inj h
  subst hh
  obtain ⟨hlen, hidx⟩ := buildImages_spec doc p.images n es hb
  exact ⟨rfl, hlen, hidx⟩

/-- Every page element the loop returns is well-formed. -/
theorem goodExc_buildPages (doc : Doc) :
    ∀ (ps : List Page) (n : Nat) (es : List Elt),
      buildPages doc ps n = Except.ok es → ∀ e ∈ es, goodExc e := by
  intro ps
  induction ps with
  | nil =>
    intro n es h e he
    have h0 : buildPages doc [] n = Except.ok [] := rfl
    rw [h0] at h
    have := Except.ok.inj h
    subst this
    simp at he
  | cons p rest ih =>
    intro n es h e he
    unfold buildPages at h
    cases hg : getPageProperties doc p n with
    | error e2 => simp [hg] at h
    | ok e1 =>
    simp only [hg] at h
    cases hb : buildPages doc rest (n + 1) with
    | error e2 => simp [hb] at h
    | ok es2 =>
    simp only [hb] at h
    have hh := Except.ok.inj h
    subst hh
    rcases List.mem_cons.mp he with he1 | he2
    · subst he1
      unfold getPageProperties at hg
      cases hbi : buildImages doc p.images n with
      | error e2 => simp [hbi] at hg
      | ok esi =>
      simp only [hbi] at hg
      have hh2 := Except.ok.inj hg
      subst hh2
      apply goodExc_node _ _ _ _ (fun hh => absurd hh (by decide))
      exact goodExc_buildImages doc p.images n esi hbi
    · exact ih (n + 1) es2 hb e he2

/-- Index structure of the page loop: as many page elements as pages, each
carrying the sequential number `n + i`. -/
theorem buildPages_spec (doc : Doc) :
    ∀ (ps : List Page) (n : Nat) (es : List Elt),
      buildPages doc ps n = Except.ok es →
      es.length = ps.length ∧
      ∀ i p, ps.get? i = some p →
        ∃ e, es.get? i = some e ∧
          getPageProperties doc p (n + i) = Except.ok e := by
  intro ps
  induction ps with
  | nil =>
    intro n es h
    have h0 : buildPages doc [] n = Except.ok [] := rfl
    rw [h0] at h
    have := Except.ok.inj h
    subst this
    exact ⟨rfl, fun i p hp => by simp at hp⟩
  | cons p0 rest ih =>
    intro n es h
    unfold buildPages at h
    cases hg : getPageProperties doc p0 n with
    | error e2 => simp [hg] at h
    | ok e1 =>
    simp only [hg] at h
    cases hb : buildPages doc rest (n + 1) with
    | error e2 => simp [hb] at h
    | ok es2 =>
    simp only [hb] at h
    have hh := Except.ok.inj h
    subst hh
    obtain ⟨hlen, hidx⟩ := ih (n + 1) es2 hb
    refine ⟨by simp [hlen], ?_⟩
    intro i p hp
    cases i with
    | zero =>
      simp at hp
      subst hp
      exact ⟨e1, rfl, hg⟩
    | succ i =>
      rw [List.get?_cons_succ] at hp ⊢
      obtain ⟨e, hge, hpe⟩ := hidx i p hp
      refine ⟨e, hge, ?_⟩
      have harith : n + (i + 1) = n + 1 + i := by omega
      rw [harith]
      exact hpe

/-- Every report `getProperties` returns is well-formed: each exception
record in it carries a message text. -/
theorem goodExc_getProperties (PDF : PDFFile) (elt : Elt)
    (h : getProperties PDF = Except.ok elt) : goodExc elt := by
  have gbase : goodExc (Elt.node "properties" [] none
      [Elt.node "filePath" [] (some PDF.path) [],
       Elt.node "fileSize" [] (some (toString PDF.size)) []]) := by
    apply goodExc_node _ _ _ _ (fun hh => absurd hh (by decide))
    intro c hc
    simp at hc
    rcases hc with hc | hc <;> rw [hc] <;> exact goodExc_leaf _ _ _
  unfold getProperties at h
  cases ho : PDF.openResult with
  | error msg =>
    simp only [ho] at h
    have he := Except.ok.inj h
    subst he
    exact goodExc_appendChild _ _ gbase (goodExc_exceptionsElt _)
  | ok doc =>
  simp only [ho] at h
  by_cases hrc : doc.authRc = 0
  · rw [if_pos hrc] at h
    have he := Except.ok.inj h
    subst he
    exact goodExc_appendChild _ _ gbase (goodExc_leaf _ _ _)
  · rw [if_neg hrc] at h
    cases hb : buildPages doc doc.pages 1 with
    | error e2 => simp [hb] at h
    | ok es =>
    simp only [hb] at h
    have he := Except.ok.inj h
    subst he
    refine goodExc_appendChild _ _ (goodExc_appendChild _ _ (goodExc_appendChild _ _
      (goodExc_appendChild _ _ (goodExc_appendChild _ _ (goodExc_appendChild _ _
        (goodExc_appendChild _ _ gbase (goodExc_leaf _ _ _))
        (goodExc_dictElt _ _ (by decide)))
        (goodExc_leaf _ _ _))
      (goodExc_leaf _ _ _))
      (goodExc_leaf _ _ _))
      ?_)
      (goodExc_exceptionsElt _)
    apply goodExc_node _ _ _ _ (fun hh => absurd hh (by decide))
    exact goodExc_buildPages doc doc.pages 1 es hb

/-- C8: every exception record the pipeline produces carries a message
string; the level is encoded by its position (file-level records sit under
the report root, stream-level ones under a `stream` node inside a page
element), and the page element in scope carries the page number assigned
when the record was raised, with its stream records beneath it in order. -/
theorem C8_records :
    (∀ (PDF : PDFFile) (elt : Elt), getProperties PDF = Except.ok elt →
      (excNodes elt).all (fun x => x.text.isSome) = true) ∧
    (∀ (doc : Doc) (page : Page) (n : Nat) (elt : Elt),
      getPageProperties doc page n = Except.ok elt →
      Elt.attr elt "number" = some (toString n) ∧
      (∀ j img, page.images.get? j = some img →
        ∃ ie, elt.children.get? j = some ie ∧
          getImageProperties doc img n = Except.ok ie)) := by
  constructor
  · intro PDF elt h
    rw [List.all_eq_true]
    intro x hx
    exact goodExc_getProperties PDF elt h x hx
  · intro doc page n elt h
    obtain ⟨ha, _, hof⟩ := pageProps_spec doc page n elt h
    exact ⟨ha, hof⟩

/-- A document failing to open at all. -/
def pdfOpenFail : PDFFile :=
  { path := "broken.pdf", size := 7, openResult := Except.error "could not open" }

/-- A two-page document without images. -/
def doc2 : Doc :=
  { authRc := 1, metadata := [], pageMode := ("null", ""), sigflags := 0,
    pages := [⟨[]⟩, ⟨[]⟩], streams := fun _ => Except.error "unused" }

/-- A file holding the two-page document. -/
def pdf2 : PDFFile :=
  { path := "two.pdf", size := 5, openResult := Except.ok doc2 }

/-- Witness for C8 at a file whose open fails (one file-level record) and
a concrete page numbered 3. -/
theorem C8_witness :
    (excNodes (okElt (getProperties pdfOpenFail))).all (fun x => x.text.isSome) = true ∧
    Elt.attr (okElt (getPageProperties doc2 ⟨[]⟩ 3)) "number" = some "3" := by
  constructor
  · exact C8_records.1 pdfOpenFail (okElt (getProperties pdfOpenFail)) rfl
  · exact (C8_records.2 doc2 ⟨[]⟩ 3 (okElt (getPageProperties doc2 ⟨[]⟩ 3)) rfl).1

/-- C9: for every document that opens without a password and for which
extraction returns a report, the `noPages` field equals the number of page
elements produced, the page elements appear in traversal order carrying
sequential 1-based numbers, and each page element holds one image element
per enumerated image reference, in enumeration order. -/
theorem C9_structure (PDF : PDFFile) (doc : Doc) (elt : Elt)
    (h : PDF.openResult = Except.ok doc) (hrc : doc.authRc ≠ 0)
    (hok : getProperties PDF = Except.ok elt) :
    ∃ pagesElt noPagesElt,
      Elt.find elt "pages" = some pagesElt ∧
      Elt.find elt "noPages" = some noPagesElt ∧
      noPagesElt.text = some (toString doc.pages.length) ∧
      pagesElt.children.length = doc.pages.length ∧
      (∀ i p, doc.pages.get? i = some p →
        ∃ e, pagesElt.children.get? i = some e ∧
          Elt.attr e "number" = some (toString (1 + i)) ∧
          e.children.length = p.images.length ∧
          (∀ j img, p.images.get? j = some img →
            ∃ ie, e.children.get? j = some ie ∧
              getImageProperties doc img (1 + i) = Except.ok ie)) := by
  unfold getProperties at hok
  simp only [h] at hok
  rw [if_neg hrc] at hok
  cases hb : buildPages doc doc.pages 1 with
  | error e2 => simp [hb] at hok
  | ok es =>
  simp only [hb] at hok
  have he := Except.ok.inj hok
  subst he
  obtain ⟨hlen, hidx⟩ := buildPages_spec doc doc.pages 1 es hb
  refine ⟨Elt.node "pages" [] none es,
    Elt.node "noPages" [] (some (toString doc.pages.length)) [],
    rfl, rfl, rfl, hlen, ?_⟩
  intro i p hp
  obtain ⟨e, hge, hpe⟩ := hidx i p hp
  obtain ⟨ha, hc, hof⟩ := pageProps_spec doc p (1 + i) e hpe
  exact ⟨e, hge, ha, hc, hof⟩

/-- Witness for C9 at the concrete two-page document. -/
theorem C9_witness :
    (Elt.find (okElt (getProperties pdf2)) "pages").map
      (fun p => p.children.length) = some 2 := by
  obtain ⟨pagesElt, noPagesElt, hf, _, _, hlen, _⟩ :=
    C9_structure pdf2 doc2 (okElt (getProperties pdf2)) rfl (by decide) rfl
  rw [hf]
  show some pagesElt.children.length = some 2
  rw [hlen]
  rfl

/-- C10: for every document that opens and needs no password and for which
extraction returns a report, the `signatureFlag` element is present and
holds the decimal rendering of whatever integer the signature-flags
collaborator returned, negative values included — absence of signatures is
never an omitted element or a distinct marker. -/
theorem C10_signatureFlag (PDF : PDFFile) (doc : Doc) (elt : Elt)
    (h : PDF.openResult = Except.ok doc) (hrc : doc.authRc ≠ 0)
    (hok : getProperties PDF = Except.ok elt) :
    ∃ sf, Elt.find elt "signatureFlag" = some sf ∧
      sf.text = some (toString doc.sigflags) := by
  unfold getProperties at hok
  simp only [h] at hok
  rw [if_neg hrc] at hok
  cases hb : buildPages doc doc.pages 1 with
  | error e2 => simp [hb] at hok
  | ok es =>
  simp only [hb] at hok
  have he := Except.ok.inj hok
  subst he
  exact ⟨_, rfl, rfl⟩

/-- A pageless document whose signature-flags collaborator reports -1. -/
def docSig : Doc :=
  { authRc := 1, metadata := [], pageMode := ("null", ""), sigflags := -1,
    pages := [], streams := fun _ => Except.error "unused" }

/-- A file holding the signature-flag document. -/
def pdfSig : PDFFile :=
  { path := "sig.pdf", size := 9, openResult := Except.ok docSig }

/-- Witness for C10: the collaborator's -1 (pymupdf's marker for "no
signature fields") is rendered as the text -1, not omitted. -/
theorem C10_witness :
    (Elt.find (okElt (getProperties pdfSig)) "signatureFlag").map Elt.text =
      some (some "-1") := by
  obtain ⟨sf, hf, ht⟩ := C10_signatureFlag pdfSig docSig
    (okElt (getProperties pdfSig)) rfl (by decide) rfl
  rw [hf]
  show some sf.text = some (some "-1")
  rw [ht]
  rfl
